import Mathlib

/-!
Verification of the departure extraction and ranking engine of the
RTDB-Auckland repository (files ATRTDB.py, RTDB_downtown.py,
RTDB_Britomart.py, RTDB_Waitemata.py).

The embedding models the decoded GTFS-realtime feed as a list of feed
entities, timestamps as integer POSIX seconds, and the Python dictionaries
appended by the scripts as Lean structures.  Protobuf optional fields are
modelled as `Option` values; the Python protobuf accessor for a missing
string field yields the empty string, which is modelled by `Option.getD`
with default value the empty string.  Python's truthiness-based `or` on
strings, floor division `//`, and float truncation `int(...)` are modelled
by dedicated helper functions.  Python's `list.sort(key=...)`, which is a
stable sort by key, is modelled by a key-based insertion sort, which is
extensionally the unique stable sort by key.
-/

/-- Transit mode enumeration from ATRTDB.py (class TransitMode). -/
inductive TransitMode where
  | TRAIN
  | BUS
  | FERRY
deriving DecidableEq

/-- Location configuration from ATRTDB.py (class Location): display name,
transit mode, route-prefix allowlist, and the resolved stop-identifier set
(populated once by find_stop_ids and stored in the stop_ids attribute). -/
structure Location where
  name : String
  mode : TransitMode
  route_prefixes : List String
  stop_ids : List String
deriving DecidableEq

/-- The departure sub-message of a GTFS-realtime stop_time_update: a POSIX
timestamp (seconds) and an optional delay in seconds.  The delay field is
optional at the protobuf level; ATRTDB.py checks HasField before reading it. -/
structure DepartureEvent where
  time : Int
  delay : Option Int
deriving DecidableEq

/-- One stop_time_update entry of a trip update: a stop identifier and an
optional departure event (the code checks HasField before use). -/
structure StopTimeUpdate where
  stop_id : String
  departure : Option DepartureEvent
deriving DecidableEq

/-- The trip descriptor of a trip update: route identifier and optional
headsign.  The Python protobuf accessor returns the empty string when the
headsign is absent. -/
structure TripDescriptor where
  route_id : String
  trip_headsign : Option String
deriving DecidableEq

/-- A trip update: trip descriptor plus its stop_time_update sequence. -/
structure TripUpdate where
  trip : TripDescriptor
  stop_time_update : List StopTimeUpdate
deriving DecidableEq

/-- One feed entity; entities without a trip_update payload are skipped by
the extraction loops (entity.HasField). -/
structure FeedEntity where
  trip_update : Option TripUpdate
deriving DecidableEq

/-- The dictionary appended by ATRTDB.get_departures for each accepted
stop-time event. -/
structure Dep where
  route : String
  headsign : String
  time : Int
  mins_until : Int
  delay : Int
  stop_id : String
deriving DecidableEq

/-- Python str.startswith, evaluated on the character sequences. -/
def startswith (s p : String) : Bool :=
  p.data.isPrefixOf s.data

/-- Python `s or d` for strings: the right operand is taken exactly when
the left one is empty (falsy). -/
def pyOr (s d : String) : String :=
  if s = "" then d else s

/-- The protobuf accessor for an optional string field: the field value if
present, the empty string otherwise. -/
def getHeadsign (t : TripDescriptor) : String :=
  t.trip_headsign.getD ""

/-- ATRTDB.py line 161-162: mins_until = int((dep_time - now).total_seconds() / 60),
then clamped to 0 when negative.  With integer-second timestamps the Python
`int(...)` truncation toward zero is Int.tdiv. -/
def minsUntil (depTime now : Int) : Int :=
  let m := (depTime - now).tdiv 60
  if m < 0 then 0 else m

/-- ATRTDB.py lines 146-149: a trip passes the route filter when the
location's route-prefix allowlist is empty, or some allowlisted prefix
starts the trip's route identifier (otherwise the loop continues to the
next entity). -/
def routeOk (loc : Location) (route_id : String) : Bool :=
  loc.route_prefixes.isEmpty || loc.route_prefixes.any (fun p => startswith route_id p)

/-- The stop/route filter of ATRTDB.py applied to a single (route, stop)
pair: the route passes the prefix allowlist and the stop identifier is a
member of the location's resolved stop set (lines 146-152). -/
def accepts (loc : Location) (route_id stop_id : String) : Bool :=
  routeOk loc route_id && stop_id ∈ loc.stop_ids

/-- The body of the inner loop of ATRTDB.get_departures (lines 151-171):
for one stop_time_update of an accepted trip, emit a departure dictionary
when the stop is in the location's stop set, the departure field is
present, and the departure time is strictly in the future. -/
def mkEntry (loc : Location) (trip : TripDescriptor) (now : Int)
    (stu : StopTimeUpdate) : Option Dep :=
  match stu.departure with
  | none => none
  | some d =>
    if stu.stop_id ∈ loc.stop_ids then
      if now < d.time then
        some { route := trip.route_id
             , headsign := pyOr (getHeadsign trip) "N/A"
             , time := d.time
             , mins_until := minsUntil d.time now
             , delay := d.delay.getD 0
             , stop_id := stu.stop_id }
      else none
    else none

/-- The per-entity work of ATRTDB.get_departures (lines 141-171): skip
entities without a trip_update, skip the whole trip when the route filter
rejects it, and otherwise collect the entries of its stop_time_updates. -/
def extractEntity (loc : Location) (now : Int) (e : FeedEntity) : List Dep :=
  match e.trip_update with
  | none => []
  | some tu =>
    if routeOk loc tu.trip.route_id then
      tu.stop_time_update.filterMap (mkEntry loc tu.trip now)
    else []

/-- All candidate departure entries of a decoded feed, in emission order
(the deps list of ATRTDB.get_departures before sorting). -/
def candidates (loc : Location) (now : Int) (feed : List FeedEntity) : List Dep :=
  feed.flatMap (extractEntity loc now)

/-- Stable insertion of an element into a list by an integer key: the
element goes in front of the first existing element of key not below its
own. -/
def insertByKey (key : α → Int) (a : α) : List α → List α
  | [] => [a]
  | b :: l => if key a ≤ key b then a :: b :: l else b :: insertByKey key a l

/-- Stable sort by an integer key, the behaviour of Python's
list.sort(key=...). -/
def sortByKey (key : α → Int) : List α → List α
  | [] => []
  | a :: l => insertByKey key a (sortByKey key l)

/-- MAX_DEPARTURES = 10 in ATRTDB.py. -/
def MAX_DEPARTURES : Nat := 10

/-- The ranking/truncation step (spec section 4.4): stable sort ascending
by departure instant, then keep the first maxCount entries
(ATRTDB.py lines 174-175 with maxCount = MAX_DEPARTURES). -/
def rank (entries : List Dep) (maxCount : Nat) : List Dep :=
  (sortByKey Dep.time entries).take maxCount

/-- ATRTDB.get_departures on an already decoded feed: extract, sort by
departure time, truncate to MAX_DEPARTURES. -/
def getDeparturesDecoded (loc : Location) (now : Int) (feed : List FeedEntity) : List Dep :=
  rank (candidates loc now feed) MAX_DEPARTURES

/-- ATRTDB.get_departures including the decode step: the whole body is
wrapped in try/except, and any exception (in particular a ParseFromString
failure on a non-decodable payload, modelled as `none`) is caught, printed,
and turned into an empty list (lines 129-179). -/
def get_departures (loc : Location) (now : Int)
    (payload : Option (List FeedEntity)) : List Dep :=
  match payload with
  | none => []
  | some feed => getDeparturesDecoded loc now feed

/-- Delay classification from ATRTDB.render_console_board (lines 230-238). -/
inductive DelayStat where
  | LATE
  | EARLY
  | ON_TIME
deriving DecidableEq

/-- ATRTDB.render_console_board lines 230-238: delay_mins = delay // 60
(Python floor division); LATE when delay_mins > 2, EARLY when
delay_mins < -2, ON TIME otherwise. -/
def classifyDelay (delay : Int) : DelayStat :=
  let delay_mins := delay.fdiv 60
  if delay_mins > 2 then DelayStat.LATE
  else if delay_mins < -2 then DelayStat.EARLY
  else DelayStat.ON_TIME

/-- FERRY_ROUTE_PREFIXES of RTDB_downtown.py, identical to the
route_prefixes of the Downtown Ferry Terminal location in ATRTDB.py. -/
def FERRY_ROUTE_PREFIXES : List String :=
  ["BAYS-", "BIRK-", "KPHS-", "KPHM-", "PINE-", "RAK-",
   "RANG-", "TIRI-", "WSTH-", "MTIA-", "HMB-"]

/-- The route_prefixes of the Britomart Bus Hub location in ATRTDB.py
(the same list appears commented out in RTDB_Britomart.py). -/
def BRITOMART_ROUTE_PREFIXES : List String :=
  ["64-", "65-", "66-", "67-", "68-", "18-", "20-", "22-",
   "24-", "25-", "27-", "30-", "70-", "75-", "295-", "298-",
   "309-", "321-", "744-", "747-", "751-", "755-", "781-", "782-"]

/-- The Downtown Ferry Terminal Location of ATRTDB.py, with its resolved
stop set supplied as a parameter (populated by find_stop_ids at runtime). -/
def ferryLocation (stop_ids : List String) : Location :=
  { name := "Downtown Ferry Terminal"
  , mode := TransitMode.FERRY
  , route_prefixes := FERRY_ROUTE_PREFIXES
  , stop_ids := stop_ids }

/-- The Britomart Bus Hub Location of ATRTDB.py, with its resolved stop
set supplied as a parameter. -/
def britomartLocation (stop_ids : List String) : Location :=
  { name := "Britomart Bus Hub"
  , mode := TransitMode.BUS
  , route_prefixes := BRITOMART_ROUTE_PREFIXES
  , stop_ids := stop_ids }

/-- The dictionary appended by RTDB_downtown.get_departures and
RTDB_Britomart.get_departures: like Dep but with no mins_until field. -/
structure DDep where
  route : String
  headsign : String
  time : Int
  delay : Int
  stop_id : String
deriving DecidableEq

/-- The identical inner-loop body of RTDB_downtown.get_departures
(lines 61-73) and RTDB_Britomart.get_departures (lines 60-72): emit an
entry when the stop is in stop_ids, the departure field is present and its
time strictly in the future.  The delay is read without a HasField check,
so the protobuf accessor yields 0 when the field is absent. -/
def scriptMkEntry (stop_ids : List String) (trip : TripDescriptor) (now : Int)
    (stu : StopTimeUpdate) : Option DDep :=
  match stu.departure with
  | none => none
  | some d =>
    if stu.stop_id ∈ stop_ids then
      if now < d.time then
        some { route := trip.route_id
             , headsign := pyOr (getHeadsign trip) "N/A"
             , time := d.time
             , delay := d.delay.getD 0
             , stop_id := stu.stop_id }
      else none
    else none

/-- Per-entity work of RTDB_downtown.get_departures (lines 55-73): the
route must start with one of FERRY_ROUTE_PREFIXES. -/
def downtownExtractEntity (stop_ids : List String) (now : Int)
    (e : FeedEntity) : List DDep :=
  match e.trip_update with
  | none => []
  | some tu =>
    if FERRY_ROUTE_PREFIXES.any (fun p => startswith tu.trip.route_id p) then
      tu.stop_time_update.filterMap (scriptMkEntry stop_ids tu.trip now)
    else []

/-- RTDB_downtown.get_departures on a decoded feed (lines 50-76): extract,
sort by departure time, keep the top 15. -/
def downtown_get_departures (stop_ids : List String) (now : Int)
    (feed : List FeedEntity) : List DDep :=
  (sortByKey DDep.time (feed.flatMap (downtownExtractEntity stop_ids now))).take 15

/-- Per-entity work of RTDB_Britomart.get_departures (lines 55-72): the
route-prefix filter is commented out in that script, so every trip update
passes straight to the stop_time_update loop. -/
def britomartExtractEntity (stop_ids : List String) (now : Int)
    (e : FeedEntity) : List DDep :=
  match e.trip_update with
  | none => []
  | some tu => tu.stop_time_update.filterMap (scriptMkEntry stop_ids tu.trip now)

/-- RTDB_Britomart.get_departures on a decoded feed (lines 50-75): extract
with no route filtering, sort by departure time, keep the top 15. -/
def britomart_get_departures (stop_ids : List String) (now : Int)
    (feed : List FeedEntity) : List DDep :=
  (sortByKey DDep.time (feed.flatMap (britomartExtractEntity stop_ids now))).take 15

/-- Projection of an ATRTDB entry onto the fields the per-location scripts
also emit: route, headsign, departure instant, delay, stop identifier. -/
def projDep (e : Dep) : DDep :=
  { route := e.route
  , headsign := e.headsign
  , time := e.time
  , delay := e.delay
  , stop_id := e.stop_id }

/-- A concrete single-entity feed used to instantiate the universally
quantified theorems: route 64-X, headsign Britomart, one stop-time event
at stop A departing at POSIX second 600 with a 200 second delay. -/
def wFeed : List FeedEntity :=
  [{ trip_update := some
      { trip := { route_id := "64-X", trip_headsign := some "Britomart" }
      , stop_time_update :=
          [{ stop_id := "A"
           , departure := some { time := 600, delay := some 200 } }] } }]

/-- A concrete location with allowlist [64-] and resolved stops [A, B]. -/
def wLoc : Location :=
  { name := "W"
  , mode := TransitMode.BUS
  , route_prefixes := ["64-"]
  , stop_ids := ["A", "B"] }

/-- A concrete single-entity ferry feed: route BAYS-1 with no headsign,
one stop-time event at pier P1 departing at POSIX second 120. -/
def wFerryFeed : List FeedEntity :=
  [{ trip_update := some
      { trip := { route_id := "BAYS-1", trip_headsign := none }
      , stop_time_update :=
          [{ stop_id := "P1"
           , departure := some { time := 120, delay := none } }] } }]

/-- A concrete feed whose only trip has route 99-X, matching none of the
Britomart route prefixes, with a future departure at a resolved stop. -/
def c9Feed : List FeedEntity :=
  [{ trip_update := some
      { trip := { route_id := "99-X", trip_headsign := some "Somewhere" }
      , stop_time_update :=
          [{ stop_id := "S1"
           , departure := some { time := 1000, delay := none } }] } }]

/-- Inserting by key yields a permutation of consing. -/
theorem insertByKey_perm (key : α → Int) (a : α) (l : List α) :
    List.Perm (insertByKey key a l) (a :: l) := by
  induction l with
  | nil => simp [insertByKey]
  | cons b l ih =>
    simp only [insertByKey]
    split
    · exact List.Perm.refl _
    · exact (ih.cons b).trans (List.Perm.swap a b l)

/-- The stable key sort permutes its input. -/
theorem sortByKey_perm (key : α → Int) (l : List α) :
    List.Perm (sortByKey key l) l := by
  induction l with
  | nil => simp [sortByKey]
  | cons a l ih =>
    simp only [sortByKey]
    exact (insertByKey_perm key a _).trans (ih.cons a)

theorem mem_insertByKey {key : α → Int} {a x : α} {l : List α} :
    x ∈ insertByKey key a l ↔ x = a ∨ x ∈ l := by
  rw [(insertByKey_perm key a l).mem_iff, List.mem_cons]

theorem insertByKey_pairwise (key : α → Int) (a : α) {l : List α}
    (h : l.Pairwise (fun x y => key x ≤ key y)) :
    (insertByKey key a l).Pairwise (fun x y => key x ≤ key y) := by
  induction l with
  | nil => simp [insertByKey]
  | cons b l ih =>
    rw [List.pairwise_cons] at h
    obtain ⟨hb, hl⟩ := h
    simp only [insertByKey]
    split
    · rename_i hab
      refine List.Pairwise.cons ?_ (List.Pairwise.cons hb hl)
      intro x hx
      rcases List.mem_cons.mp hx with rfl | hx
      · exact hab
      · exact le_trans hab (hb x hx)
    · rename_i hab
      push_neg at hab
      refine List.Pairwise.cons ?_ (ih hl)
      intro x hx
      rcases mem_insertByKey.mp hx with rfl | hx
      · exact le_of_lt hab
      · exact hb x hx

/-- The stable key sort sorts ascending by the key. -/
theorem sortByKey_pairwise (key : α → Int) (l : List α) :
    (sortByKey key l).Pairwise (fun x y => key x ≤ key y) := by
  induction l with
  | nil => simp [sortByKey]
  | cons a l ih => exact insertByKey_pairwise key a ih

theorem insertByKey_filter (key : α → Int) (t : Int) (a : α) (l : List α) :
    (insertByKey key a l).filter (fun x => key x == t)
      = if key a == t then a :: l.filter (fun x => key x == t)
        else l.filter (fun x => key x == t) := by
  induction l with
  | nil => by_cases hat : key a = t <;> simp [insertByKey, hat]
  | cons b l ih =>
    simp only [insertByKey]
    split
    · rename_i hab
      simp only [List.filter_cons]
    · rename_i hab
      push_neg at hab
      by_cases hat : key a = t
      · have hbt : ¬ (key b = t) := by omega
        simp [List.filter_cons, hat, hbt, ih]
      · simp [List.filter_cons, hat, ih]

/-- Stability of the key sort: the elements of any one key value keep
their input order. -/
theorem sortByKey_filter (key : α → Int) (t : Int) (l : List α) :
    (sortByKey key l).filter (fun x => key x == t)
      = l.filter (fun x => key x == t) := by
  induction l with
  | nil => rfl
  | cons a l ih =>
    simp only [sortByKey]
    rw [insertByKey_filter, ih, List.filter_cons]

theorem insertByKey_map (key : α → Int) (keyb : β → Int) (f : α → β)
    (hk : ∀ x, keyb (f x) = key x) (a : α) (l : List α) :
    insertByKey keyb (f a) (l.map f) = (insertByKey key a l).map f := by
  induction l with
  | nil => simp [insertByKey]
  | cons b l ih =>
    by_cases hab : key a ≤ key b
    · simp [insertByKey, hk, hab]
    · simp [insertByKey, hk, hab, ih]

/-- Sorting commutes with a key-preserving projection. -/
theorem sortByKey_map (key : α → Int) (keyb : β → Int) (f : α → β)
    (hk : ∀ x, keyb (f x) = key x) (l : List α) :
    sortByKey keyb (l.map f) = (sortByKey key l).map f := by
  induction l with
  | nil => rfl
  | cons a l ih =>
    simp only [List.map_cons, sortByKey, ih, insertByKey_map key keyb f hk]

theorem sortByKey_length (key : α → Int) (l : List α) :
    (sortByKey key l).length = l.length :=
  (sortByKey_perm key l).length_eq

/-- Inversion of the inner-loop body: an emitted entry pins down every
field and the guards that let it through. -/
theorem mkEntry_eq_some {loc : Location} {trip : TripDescriptor} {now : Int}
    {stu : StopTimeUpdate} {e : Dep} (h : mkEntry loc trip now stu = some e) :
    ∃ d, stu.departure = some d ∧ stu.stop_id ∈ loc.stop_ids ∧ now < d.time ∧
      e = { route := trip.route_id
          , headsign := pyOr (getHeadsign trip) "N/A"
          , time := d.time
          , mins_until := minsUntil d.time now
          , delay := d.delay.getD 0
          , stop_id := stu.stop_id } := by
  cases hd : stu.departure with
  | none => simp only [mkEntry, hd] at h; exact absurd h (by simp)
  | some d =>
    simp only [mkEntry, hd] at h
    by_cases hmem : stu.stop_id ∈ loc.stop_ids
    · rw [if_pos hmem] at h
      by_cases ht : now < d.time
      · rw [if_pos ht] at h
        obtain rfl := Option.some_inj.mp h
        exact ⟨d, rfl, hmem, ht, rfl⟩
      · rw [if_neg ht] at h
        exact absurd h (by simp)
    · rw [if_neg hmem] at h
      exact absurd h (by simp)

/-- Every entry of the final board output arises from some trip and
stop-time event via the inner-loop body. -/
theorem mem_getDeparturesDecoded {loc : Location} {now : Int}
    {feed : List FeedEntity} {e : Dep} (h : e ∈ getDeparturesDecoded loc now feed) :
    ∃ trip stu, mkEntry loc trip now stu = some e := by
  unfold getDeparturesDecoded rank at h
  have h1 : e ∈ sortByKey Dep.time (candidates loc now feed) := List.mem_of_mem_take h
  have h2 : e ∈ candidates loc now feed := ((sortByKey_perm _ _).mem_iff).mp h1
  unfold candidates at h2
  rw [List.mem_flatMap] at h2
  obtain ⟨ent, _, hent⟩ := h2
  cases htu : ent.trip_update with
  | none => simp only [extractEntity, htu, List.not_mem_nil] at hent
  | some tu =>
    simp only [extractEntity, htu] at hent
    by_cases hr : routeOk loc tu.trip.route_id = true
    · rw [if_pos hr] at hent
      rw [List.mem_filterMap] at hent
      obtain ⟨stu, _, hs⟩ := hent
      exact ⟨tu.trip, stu, hs⟩
    · rw [if_neg hr] at hent
      simp at hent

/-- The clamped truncating division of the source equals the clamped floor
division of the spec. -/
theorem minsUntil_eq_max (dep now : Int) :
    minsUntil dep now = max 0 ((dep - now).fdiv 60) := by
  show (if (dep - now).tdiv 60 < 0 then 0 else (dep - now).tdiv 60)
      = max 0 ((dep - now).fdiv 60)
  rw [Int.fdiv_eq_ediv _ (by omega)]
  rcases le_or_lt 0 (dep - now) with hs | hs
  · rw [Int.tdiv_eq_ediv hs (by omega)]
    split <;> omega
  · have h1 : (dep - now).tdiv 60 ≤ 0 := by
      have hn : 0 ≤ (now - dep).tdiv 60 := Int.tdiv_nonneg (by omega) (by omega)
      have heq : (dep - now).tdiv 60 = -((now - dep).tdiv 60) := by
        rw [show dep - now = -(now - dep) by ring, Int.neg_tdiv]
      omega
    have h2 : (dep - now) / 60 < 0 := by omega
    split <;> omega

/-- Claim C1: every DepartureEntry emitted by get_departures has a
departure instant strictly greater than the reference now, and a stop-time
event whose departure instant is less than or equal to now produces no
entry. -/
theorem C1_only_future_departures :
    (∀ (loc : Location) (now : Int) (feed : List FeedEntity) (e : Dep),
        e ∈ getDeparturesDecoded loc now feed → now < e.time)
    ∧ (∀ (loc : Location) (trip : TripDescriptor) (now : Int)
        (stu : StopTimeUpdate) (d : DepartureEvent),
        stu.departure = some d → d.time ≤ now →
        mkEntry loc trip now stu = none) := by
  constructor
  · intro loc now feed e h
    obtain ⟨trip, stu, hs⟩ := mem_getDeparturesDecoded h
    obtain ⟨d, _, _, ht, he⟩ := mkEntry_eq_some hs
    rw [he]
    exact ht
  · intro loc trip now stu d hd hle
    simp only [mkEntry, hd]
    by_cases hmem : stu.stop_id ∈ loc.stop_ids
    · rw [if_pos hmem, if_neg (by omega : ¬ now < d.time)]
    · rw [if_neg hmem]

/-- Witness for C1: at the concrete feed wFeed with now = 0, the emitted
entry departs at 600 > 0; a stop-time event at 600 with now = 700 yields
no entry. -/
theorem C1_only_future_departures_witness :
    ((0 : Int) < (600 : Int))
    ∧ mkEntry wLoc { route_id := "64-X", trip_headsign := none } 700
        { stop_id := "A", departure := some { time := 600, delay := some 0 } } = none := by
  constructor
  · exact C1_only_future_departures.1 wLoc 0 wFeed
      ⟨"64-X", "Britomart", 600, 10, 200, "A"⟩ (by decide)
  · exact C1_only_future_departures.2 wLoc { route_id := "64-X", trip_headsign := none } 700
      { stop_id := "A", departure := some { time := 600, delay := some 0 } }
      { time := 600, delay := some 0 } rfl (by decide)

/-- Claim C2: delay classification is a pure function of delay-seconds:
delay-minutes is delay-seconds integer-divided by 60, the status is LATE
when delay-minutes > 2, EARLY when delay-minutes < -2, ON_TIME otherwise;
181 seconds is LATE, -181 seconds is EARLY, 90 and -90 seconds are
ON_TIME. -/
theorem C2_delay_classification :
    (∀ d : Int, classifyDelay d =
      if d.fdiv 60 > 2 then DelayStat.LATE
      else if d.fdiv 60 < -2 then DelayStat.EARLY
      else DelayStat.ON_TIME)
    ∧ classifyDelay 181 = DelayStat.LATE
    ∧ classifyDelay (-181) = DelayStat.EARLY
    ∧ classifyDelay 90 = DelayStat.ON_TIME
    ∧ classifyDelay (-90) = DelayStat.ON_TIME :=
  ⟨fun _ => rfl, by decide, by decide, by decide, by decide⟩

/-- Claim C10: with Python floor division the classification boundaries
are asymmetric in seconds: ON_TIME exactly on [-120, 179], LATE exactly
from +180 on, EARLY exactly from -121 down; 150 is ON_TIME while -150 is
EARLY. -/
theorem C10_floor_division_asymmetry :
    (∀ d : Int,
      (classifyDelay d = DelayStat.ON_TIME ↔ -120 ≤ d ∧ d ≤ 179)
      ∧ (classifyDelay d = DelayStat.LATE ↔ 180 ≤ d)
      ∧ (classifyDelay d = DelayStat.EARLY ↔ d ≤ -121))
    ∧ classifyDelay 150 = DelayStat.ON_TIME
    ∧ classifyDelay (-150) = DelayStat.EARLY
    ∧ classifyDelay 180 = DelayStat.LATE
    ∧ classifyDelay 179 = DelayStat.ON_TIME
    ∧ classifyDelay (-121) = DelayStat.EARLY
    ∧ classifyDelay (-120) = DelayStat.ON_TIME := by
  refine ⟨?_, by decide, by decide, by decide, by decide, by decide, by decide⟩
  intro d
  have hf : d.fdiv 60 = d / 60 := Int.fdiv_eq_ediv d (by omega)
  unfold classifyDelay
  rw [hf]
  by_cases h1 : d / 60 > 2
  · rw [if_pos h1]
    refine ⟨by simp; omega, by simp; omega, by simp; omega⟩
  · rw [if_neg h1]
    by_cases h2 : d / 60 < -2
    · rw [if_pos h2]
      refine ⟨by simp; omega, by simp; omega, by simp; omega⟩
    · rw [if_neg h2]
      refine ⟨by simp; omega, by simp; omega, by simp; omega⟩

/-- Claim C5: the ranked output never exceeds maxCount entries, and
rank(entries, k) is the length-k prefix of rank(entries, len(entries)),
the full ascending sort. -/
theorem C5_rank_length_and_prefix :
    ∀ (entries : List Dep) (maxCount k : Nat),
      (rank entries maxCount).length ≤ maxCount
      ∧ rank entries k = (rank entries entries.length).take k := by
  intro entries maxCount k
  constructor
  · unfold rank
    rw [List.length_take]
    exact min_le_left _ _
  · unfold rank
    have hl : entries.length = (sortByKey Dep.time entries).length :=
      (sortByKey_length Dep.time entries).symm
    rw [hl, List.take_length]

/-- Claim C6: ranking sorts ascending by the departure instant alone and
the sort is stable: it permutes the input, the output is sorted by time,
and the entries of any one departure instant keep their input (emission)
order.  The modelled sort is a pure function, so repeated invocation on
the same input trivially returns the same ordering. -/
theorem C6_sort_ascending_stable :
    ∀ (l : List Dep) (t : Int),
      (sortByKey Dep.time l).Pairwise (fun a b => a.time ≤ b.time)
      ∧ List.Perm (sortByKey Dep.time l) l
      ∧ (sortByKey Dep.time l).filter (fun e => e.time == t)
          = l.filter (fun e => e.time == t) :=
  fun l t => ⟨sortByKey_pairwise Dep.time l, sortByKey_perm Dep.time l,
    sortByKey_filter Dep.time t l⟩

/-- Claim C7: minutes-until-departure is the floor of the second
difference divided by 60, clamped below at zero, and is never negative;
this holds for all inputs of the computation, also those where the
unclamped value would be negative, and for every emitted entry. -/
theorem C7_mins_until_clamped_nonneg :
    (∀ dep now : Int,
        minsUntil dep now = max 0 ((dep - now).fdiv 60) ∧ 0 ≤ minsUntil dep now)
    ∧ (∀ (loc : Location) (now : Int) (feed : List FeedEntity) (e : Dep),
        e ∈ getDeparturesDecoded loc now feed →
        e.mins_until = max 0 ((e.time - now).fdiv 60) ∧ 0 ≤ e.mins_until) := by
  have hmain : ∀ dep now : Int,
      minsUntil dep now = max 0 ((dep - now).fdiv 60) ∧ 0 ≤ minsUntil dep now := by
    intro dep now
    refine ⟨minsUntil_eq_max dep now, ?_⟩
    rw [minsUntil_eq_max]
    exact le_max_left 0 _
  refine ⟨hmain, ?_⟩
  intro loc now feed e h
  obtain ⟨trip, stu, hs⟩ := mem_getDeparturesDecoded h
  obtain ⟨d, _, _, _, he⟩ := mkEntry_eq_some hs
  rw [he]
  exact hmain d.time now

/-- Witness for C7: the entry emitted from wFeed at now = 0 has
mins_until 10 = max 0 ((600 - 0) fdiv 60) and is nonnegative. -/
theorem C7_mins_until_clamped_nonneg_witness :
    ((⟨"64-X", "Britomart", 600, 10, 200, "A"⟩ : Dep).mins_until
        = max 0 (((600 : Int) - 0).fdiv 60))
    ∧ (0 : Int) ≤ (⟨"64-X", "Britomart", 600, 10, 200, "A"⟩ : Dep).mins_until :=
  C7_mins_until_clamped_nonneg.2 wLoc 0 wFeed
    ⟨"64-X", "Britomart", 600, 10, 200, "A"⟩ (by decide)

/-- Claim C3: the stop/route filter accepts a stop-time event exactly when
the allowlist is empty or some allowlisted prefix starts the route, and
the stop identifier is in the resolved stop set; a trip whose route fails
a non-empty allowlist contributes no entries; a stop outside the resolved
set yields no entry; an empty resolved stop set makes the whole output
empty; and the three concrete spec examples hold on the location with
stops [A, B] and allowlist [64-]. -/
theorem C3_filter_characterisation :
    (∀ (loc : Location) (r s : String),
        accepts loc r s = true ↔
          ((loc.route_prefixes = [] ∨ ∃ p ∈ loc.route_prefixes, startswith r p = true)
            ∧ s ∈ loc.stop_ids))
    ∧ (∀ (loc : Location) (now : Int) (e : FeedEntity) (tu : TripUpdate),
        e.trip_update = some tu → routeOk loc tu.trip.route_id = false →
        extractEntity loc now e = [])
    ∧ (∀ (loc : Location) (trip : TripDescriptor) (now : Int) (stu : StopTimeUpdate),
        stu.stop_id ∉ loc.stop_ids → mkEntry loc trip now stu = none)
    ∧ (∀ (loc : Location) (now : Int) (feed : List FeedEntity),
        loc.stop_ids = [] → getDeparturesDecoded loc now feed = [])
    ∧ accepts wLoc "64-X" "A" = true
    ∧ accepts wLoc "65-X" "A" = false
    ∧ accepts wLoc "64-X" "C" = false := by
  refine ⟨?_, ?_, ?_, ?_, by decide, by decide, by decide⟩
  · intro loc r s
    simp [accepts, routeOk, List.any_eq_true, List.isEmpty_iff]
  · intro loc now e tu htu hro
    simp [extractEntity, htu, hro]
  · intro loc trip now stu hmem
    cases hd : stu.departure with
    | none => simp [mkEntry, hd]
    | some d => simp [mkEntry, hd, hmem]
  · intro loc now feed hempty
    have hmk : ∀ trip stu, mkEntry loc trip now stu = none := by
      intro trip stu
      cases hd : stu.departure with
      | none => simp [mkEntry, hd]
      | some d => simp [mkEntry, hd, hempty]
    have hext : ∀ e, extractEntity loc now e = [] := by
      intro e
      cases htu : e.trip_update with
      | none => simp [extractEntity, htu]
      | some tu =>
        simp only [extractEntity, htu]
        split
        · exact List.filterMap_eq_nil_iff.mpr (fun stu _ => hmk tu.trip stu)
        · rfl
    have hc : candidates loc now feed = [] := by
      unfold candidates
      induction feed with
      | nil => rfl
      | cons e feed ih => simp [List.flatMap_cons, hext, ih]
    simp [getDeparturesDecoded, rank, hc, sortByKey]

/-- Witness for C3: a ferry-filtered location rejects the 99-X trip
entirely; stop C is rejected by the [A, B] location; a location with an
empty resolved stop set produces an empty board from wFeed. -/
theorem C3_filter_characterisation_witness :
    extractEntity (ferryLocation ["S1"]) 0
        ⟨some ⟨⟨"99-X", some "Somewhere"⟩, [⟨"S1", some ⟨1000, none⟩⟩]⟩⟩ = []
    ∧ mkEntry wLoc ⟨"64-X", none⟩ 0 ⟨"C", some ⟨600, none⟩⟩ = none
    ∧ getDeparturesDecoded (Location.mk "E" TransitMode.BUS [] []) 0 wFeed = [] := by
  refine ⟨?_, ?_, ?_⟩
  · exact C3_filter_characterisation.2.1 (ferryLocation ["S1"]) 0 _
      ⟨⟨"99-X", some "Somewhere"⟩, [⟨"S1", some ⟨1000, none⟩⟩]⟩ rfl (by decide)
  · exact C3_filter_characterisation.2.2.1 wLoc ⟨"64-X", none⟩ 0
      ⟨"C", some ⟨600, none⟩⟩ (by decide)
  · exact C3_filter_characterisation.2.2.2.1 (Location.mk "E" TransitMode.BUS [] []) 0 wFeed rfl

/-- Claim C8: an emitted entry's delay-seconds is the event's delay field
when present and 0 when absent, and its headsign is the trip's headsign
when present and non-empty and the sentinel N/A otherwise. -/
theorem C8_delay_and_headsign_defaults :
    ∀ (loc : Location) (trip : TripDescriptor) (now : Int)
      (stu : StopTimeUpdate) (d : DepartureEvent) (e : Dep),
      stu.departure = some d → mkEntry loc trip now stu = some e →
      ((∀ v, d.delay = some v → e.delay = v)
        ∧ (d.delay = none → e.delay = 0)
        ∧ (∀ s, trip.trip_headsign = some s → s ≠ "" → e.headsign = s)
        ∧ ((trip.trip_headsign = none ∨ trip.trip_headsign = some "") →
            e.headsign = "N/A")) := by
  intro loc trip now stu d e hd hmk
  obtain ⟨d2, hd2, hmem, ht, he⟩ := mkEntry_eq_some hmk
  rw [hd] at hd2
  obtain rfl := Option.some_inj.mp hd2
  subst he
  refine ⟨?_, ?_, ?_, ?_⟩
  · intro v hv
    simp [hv]
  · intro hv
    simp [hv]
  · intro s hs hne
    simp [pyOr, getHeadsign, hs, hne]
  · intro hcase
    rcases hcase with hc | hc <;> simp [pyOr, getHeadsign, hc]

/-- Witness for C8: the wFeed entry carries the present delay 200 and the
present non-empty headsign Britomart. -/
theorem C8_delay_and_headsign_defaults_witness :
    ((⟨"64-X", "Britomart", 600, 10, 200, "A"⟩ : Dep).delay = 200)
    ∧ ((⟨"64-X", "Britomart", 600, 10, 200, "A"⟩ : Dep).headsign = "Britomart") := by
  have h := C8_delay_and_headsign_defaults wLoc ⟨"64-X", some "Britomart"⟩ 0
    ⟨"A", some ⟨600, some 200⟩⟩ ⟨600, some 200⟩
    ⟨"64-X", "Britomart", 600, 10, 200, "A"⟩ rfl (by decide)
  exact ⟨h.1 200 rfl, h.2.2.1 "Britomart" rfl (by decide)⟩

/-- Claim C4 counterexample: the claim says a caller can tell an empty
result caused by decode failure apart from an empty result where no trips
matched, via a distinguishable DecodeError signal.  In the code the whole
body of get_departures is wrapped in try/except and any exception is
turned into a plain empty list (the error is only printed), so the value
returned for a non-decodable payload is identical to the value returned
for a decodable feed with no matching trips: no caller-visible signal
exists. -/
theorem C4_counterexample :
    get_departures wLoc 0 none = get_departures wLoc 0 (some [])
    ∧ get_departures wLoc 0 none = [] :=
  ⟨rfl, rfl⟩

/-- Claim C4 as amended: on a non-decodable feed payload get_departures
catches the error and returns an empty sequence (the process continues),
but it emits no distinguishable error signal to its caller: the result
is the same empty list produced by a decodable feed with no matching
trips. -/
theorem C4_decode_failure_silent_empty :
    ∀ (loc : Location) (now : Int),
      get_departures loc now none = []
      ∧ get_departures loc now none = get_departures loc now (some []) :=
  fun _ _ => ⟨rfl, rfl⟩

/-- The projection commutes with the inner-loop bodies: the ATRTDB entry
of a stop-time event, projected, is the script entry of that event. -/
theorem mkEntry_map_proj (loc : Location) (trip : TripDescriptor) (now : Int)
    (stu : StopTimeUpdate) :
    (mkEntry loc trip now stu).map projDep = scriptMkEntry loc.stop_ids trip now stu := by
  cases hd : stu.departure with
  | none => simp [mkEntry, scriptMkEntry, hd]
  | some d =>
    simp only [mkEntry, scriptMkEntry, hd]
    by_cases hmem : stu.stop_id ∈ loc.stop_ids
    · rw [if_pos hmem, if_pos hmem]
      by_cases ht : now < d.time
      · rw [if_pos ht, if_pos ht]
        rfl
      · rw [if_neg ht, if_neg ht]
        rfl
    · rw [if_neg hmem, if_neg hmem]
      rfl

/-- Congruence for flatMap under the projection. -/
theorem flatMap_map_proj_congr {feed : List FeedEntity} {f : FeedEntity → List Dep}
    {g : FeedEntity → List DDep} (h : ∀ e ∈ feed, (f e).map projDep = g e) :
    (feed.flatMap f).map projDep = feed.flatMap g := by
  induction feed with
  | nil => rfl
  | cons e feed ih =>
    rw [List.flatMap_cons, List.flatMap_cons, List.map_append,
        h e (List.mem_cons_self e feed),
        ih (fun x hx => h x (List.mem_cons_of_mem e hx))]

/-- The projected per-entity extraction of the ferry location equals the
per-entity extraction of RTDB_downtown. -/
theorem extractEntity_ferry_map (stop_ids : List String) (now : Int) (e : FeedEntity) :
    (extractEntity (ferryLocation stop_ids) now e).map projDep
      = downtownExtractEntity stop_ids now e := by
  cases htu : e.trip_update with
  | none => simp [extractEntity, downtownExtractEntity, htu]
  | some tu =>
    simp only [extractEntity, downtownExtractEntity, htu]
    have hro : routeOk (ferryLocation stop_ids) tu.trip.route_id
        = FERRY_ROUTE_PREFIXES.any (fun p => startswith tu.trip.route_id p) := by
      simp [routeOk, ferryLocation, FERRY_ROUTE_PREFIXES]
    rw [hro]
    split
    · rw [List.map_filterMap]
      congr 1
      funext stu
      exact mkEntry_map_proj (ferryLocation stop_ids) tu.trip now stu
    · rfl

/-- ATRTDB with the Downtown Ferry configuration refines RTDB_downtown:
the projected board equals the downtown board cut at ATRTDB's bound. -/
theorem ferry_engine_eq_downtown (stop_ids : List String) (now : Int)
    (feed : List FeedEntity) :
    (getDeparturesDecoded (ferryLocation stop_ids) now feed).map projDep
      = (downtown_get_departures stop_ids now feed).take MAX_DEPARTURES := by
  unfold getDeparturesDecoded rank downtown_get_departures candidates
  rw [List.map_take,
      ← sortByKey_map Dep.time DDep.time projDep (fun x => rfl),
      flatMap_map_proj_congr (fun e _ => extractEntity_ferry_map stop_ids now e),
      List.take_take]
  norm_num [MAX_DEPARTURES]

/-- Under the side condition that every trip update in the feed has a
route starting with an allowlisted Britomart prefix, ATRTDB with the
Britomart configuration agrees with RTDB_Britomart. -/
theorem britomart_engine_eq_script (stop_ids : List String) (now : Int)
    (feed : List FeedEntity)
    (hall : ∀ e ∈ feed, ∀ tu : TripUpdate, e.trip_update = some tu →
        BRITOMART_ROUTE_PREFIXES.any (fun p => startswith tu.trip.route_id p) = true) :
    (getDeparturesDecoded (britomartLocation stop_ids) now feed).map projDep
      = (britomart_get_departures stop_ids now feed).take MAX_DEPARTURES := by
  have hext : ∀ e ∈ feed, (extractEntity (britomartLocation stop_ids) now e).map projDep
      = britomartExtractEntity stop_ids now e := by
    intro e he
    cases htu : e.trip_update with
    | none => simp [extractEntity, britomartExtractEntity, htu]
    | some tu =>
      have hro : routeOk (britomartLocation stop_ids) tu.trip.route_id = true := by
        simp only [routeOk, britomartLocation]
        rw [hall e he tu htu]
        simp
      simp only [extractEntity, britomartExtractEntity, htu, hro, if_true]
      rw [List.map_filterMap]
      congr 1
      funext stu
      exact mkEntry_map_proj (britomartLocation stop_ids) tu.trip now stu
  unfold getDeparturesDecoded rank britomart_get_departures candidates
  rw [List.map_take,
      ← sortByKey_map Dep.time DDep.time projDep (fun x => rfl),
      flatMap_map_proj_congr hext,
      List.take_take]
  norm_num [MAX_DEPARTURES]

/-- Claim C9 counterexample: with resolved stop set [S1] and reference
now 0, the feed c9Feed (one trip, route 99-X, future departure at stop S1)
makes ATRTDB with the Britomart configuration produce an empty board,
while RTDB_Britomart produces one entry: its route-prefix filter is
commented out, so the two are not behaviourally equivalent. -/
theorem C9_counterexample :
    ¬ ((getDeparturesDecoded (britomartLocation ["S1"]) 0 c9Feed).map projDep
        = (britomart_get_departures ["S1"] 0 c9Feed).take MAX_DEPARTURES) := by
  decide

/-- Claim C9 as amended: ATRTDB's engine with the Downtown Ferry
configuration yields, after projection to the fields both emit, exactly
RTDB_downtown's output cut at ATRTDB's truncation bound; with the
Britomart configuration the same equivalence holds only under the side
condition that every trip update's route starts with an allowlisted
Britomart prefix (RTDB_Britomart itself performs no route filtering,
its allowlist being commented out). -/
theorem C9_engine_script_equivalence :
    ∀ (stop_ids : List String) (now : Int) (feed : List FeedEntity),
      ((getDeparturesDecoded (ferryLocation stop_ids) now feed).map projDep
        = (downtown_get_departures stop_ids now feed).take MAX_DEPARTURES)
      ∧ ((∀ e ∈ feed, ∀ tu : TripUpdate, e.trip_update = some tu →
            BRITOMART_ROUTE_PREFIXES.any (fun p => startswith tu.trip.route_id p) = true) →
          (getDeparturesDecoded (britomartLocation stop_ids) now feed).map projDep
            = (britomart_get_departures stop_ids now feed).take MAX_DEPARTURES) :=
  fun stop_ids now feed =>
    ⟨ferry_engine_eq_downtown stop_ids now feed,
     fun hall => britomart_engine_eq_script stop_ids now feed hall⟩

/-- Witness for C9: the equivalence evaluated on the concrete ferry feed
wFerryFeed and on the concrete Britomart-conforming feed wFeed. -/
theorem C9_engine_script_equivalence_witness :
    ((getDeparturesDecoded (ferryLocation ["P1"]) 0 wFerryFeed).map projDep
      = (downtown_get_departures ["P1"] 0 wFerryFeed).take MAX_DEPARTURES)
    ∧ ((getDeparturesDecoded (britomartLocation ["A"]) 0 wFeed).map projDep
      = (britomart_get_departures ["A"] 0 wFeed).take MAX_DEPARTURES) := by
  refine ⟨(C9_engine_script_equivalence ["P1"] 0 wFerryFeed).1,
    (C9_engine_script_equivalence ["A"] 0 wFeed).2 ?_⟩
  intro e he tu htu
  simp only [wFeed, List.mem_singleton] at he
  subst he
  obtain rfl := Option.some_inj.mp htu.symm
  decide
